import Mathlib

/-!
Shallow embedding of the "ray tracing in one weekend" renderer.

Machine floating-point (`f32`/`f64` in the source) is modelled by the real
numbers `ℝ`; `sqrt` is `Real.sqrt`.  Random draws (`thread_rng`, the
`UnitSphere` / `UnitBall` / `UnitDisc` distributions) are modelled by passing
the drawn value as an explicit argument.  Dynamic trait objects
(`dyn Scatter`) become a sum type `Material` over the three materials that
exist in the program.
-/

namespace RTOW

/-- glam `Vec3`, components modelled as reals. -/
structure Vec3 where
  x : ℝ
  y : ℝ
  z : ℝ

namespace Vec3

noncomputable def add (v w : Vec3) : Vec3 := ⟨v.x + w.x, v.y + w.y, v.z + w.z⟩

noncomputable def sub (v w : Vec3) : Vec3 := ⟨v.x - w.x, v.y - w.y, v.z - w.z⟩

noncomputable def neg (v : Vec3) : Vec3 := ⟨-v.x, -v.y, -v.z⟩

/-- Scalar multiplication `v * k`. -/
noncomputable def scale (v : Vec3) (k : ℝ) : Vec3 := ⟨v.x * k, v.y * k, v.z * k⟩

/-- Componentwise division by a scalar, `v / k`. -/
noncomputable def divScalar (v : Vec3) (k : ℝ) : Vec3 := ⟨v.x / k, v.y / k, v.z / k⟩

/-- Componentwise product (used for color attenuation). -/
noncomputable def mul (v w : Vec3) : Vec3 := ⟨v.x * w.x, v.y * w.y, v.z * w.z⟩

noncomputable def dot (v w : Vec3) : ℝ := v.x * w.x + v.y * w.y + v.z * w.z

noncomputable def length_squared (v : Vec3) : ℝ := v.dot v

noncomputable def length (v : Vec3) : ℝ := Real.sqrt v.length_squared

/-- glam `normalize`: `v * (1 / length v)`. -/
noncomputable def normalize (v : Vec3) : Vec3 := v.scale (1 / v.length)

noncomputable def zero : Vec3 := ⟨0, 0, 0⟩

noncomputable def one : Vec3 := ⟨1, 1, 1⟩

/-- glam `DVec3::lerp(a, b, t) = a + (b - a) * t`. -/
noncomputable def lerp (a b : Vec3) (t : ℝ) : Vec3 := a.add ((b.sub a).scale t)

end Vec3

structure Ray where
  origin : Vec3
  direction : Vec3

/-- Rust `Ray::at`: `origin + direction * t`. -/
noncomputable def Ray.at (r : Ray) (t : ℝ) : Vec3 := r.origin.add (r.direction.scale t)

/-- The three material variants of the program (`dyn Scatter` trait objects). -/
inductive Material where
  | lambertian (albedo : Vec3)
  | metal (albedo : Vec3) (fuzz : ℝ)
  | dielectric (index_of_refraction : ℝ)

structure SurfaceIntersection where
  p : Vec3
  normal : Vec3
  facing : Bool
  material : Material
  t : ℝ

structure Sphere where
  center : Vec3
  radius : ℝ
  material : Material

open Classical in
/-- The intersection record `Sphere::raycast` builds once a root `t` has been
accepted (`sphere.rs` lines 48-55): point, outward normal `(p - center) / radius`,
facing flag, oriented normal. -/
noncomputable def Sphere.intersectionAt (s : Sphere) (r : Ray) (t : ℝ) :
    SurfaceIntersection :=
  let p := r.at t
  let outward_normal := (p.sub s.center).divScalar s.radius
  let facing : Bool := if r.direction.dot outward_normal < 0 then true else false
  let normal := if facing then outward_normal else outward_normal.neg
  { p := p, normal := normal, facing := facing, material := s.material, t := t }

open Classical in
/-- Function `Sphere::raycast` from `src/src/sphere.rs`, translated verbatim, including
the inner bound check `root < t_max || t_max < root` exactly as written there. -/
noncomputable def Sphere.raycast (s : Sphere) (r : Ray) (t_min t_max : ℝ) :
    Option SurfaceIntersection :=
  let oc := r.origin.sub s.center
  let a := r.direction.length_squared
  let half_b := oc.dot r.direction
  let c := oc.length_squared - s.radius * s.radius
  let discriminant := half_b * half_b - a * c
  if discriminant < 0 then none
  else
    let discriminant_sqrt := Real.sqrt discriminant
    let root_lower := (-half_b - discriminant_sqrt) / a
    let root_upper := (-half_b + discriminant_sqrt) / a
    if root_lower < t_min ∨ t_max < root_lower then
      if root_upper < t_max ∨ t_max < root_upper then none
      else some (s.intersectionAt r root_upper)
    else some (s.intersectionAt r root_lower)

/-- The scene is a list of spheres (the only `Surface` implementation used by
the program). -/
abbrev World := List Sphere

/-- Loop body of `find_closest_intersection` / `World::raycast`: iterate over
the surfaces carrying the best `result` so far and the shrunken bound
`t_nearest`. -/
noncomputable def findClosestGo (ray : Ray) (t_min : ℝ) :
    World → Option SurfaceIntersection → ℝ → Option SurfaceIntersection
  | [], result, _ => result
  | obj :: rest, result, t_nearest =>
    match obj.raycast ray t_min t_nearest with
    | some intersection => findClosestGo ray t_min rest (some intersection) intersection.t
    | none => findClosestGo ray t_min rest result t_nearest

/-- Function `find_closest_intersection` from `main.rs` (identically, `World::raycast`
from `lib/world.rs`): linear scan starting from `result = None`,
`t_nearest = t_max`. -/
noncomputable def find_closest_intersection (world : World) (ray : Ray)
    (t_min t_max : ℝ) : Option SurfaceIntersection :=
  findClosestGo ray t_min world none t_max

/-- Constant `f32::EPSILON` = 2⁻²³. -/
noncomputable def f32Eps : ℝ := 1 / 2 ^ 23

/-- Constant `f32::MAX` = (2²⁴ − 1)·2¹⁰⁴. -/
noncomputable def f32Max : ℝ := (2 ^ 24 - 1) * 2 ^ 104

open Classical in
/-- Function `is_near_zero`: glam `abs_diff_eq` against the zero vector with tolerance
`f32::EPSILON`, i.e. every component has absolute value ≤ ε. -/
noncomputable def is_near_zero (v : Vec3) : Bool :=
  if |v.x| ≤ f32Eps ∧ |v.y| ≤ f32Eps ∧ |v.z| ≤ f32Eps then true else false

/-- Mirror reflection `reflect(v, n) = v - 2·dot(v,n)·n`. -/
noncomputable def reflect (v normal : Vec3) : Vec3 :=
  v.sub (normal.scale (2 * v.dot normal))

/-- Snell refraction `refract` from `lib/util.rs` / `main.rs`. -/
noncomputable def refract (v normal : Vec3) (ratio : ℝ) : Vec3 :=
  let inv_normal := normal.neg
  let r_perp := (v.add (normal.scale (min (v.dot inv_normal) 1))).scale ratio
  let r_para := inv_normal.scale (Real.sqrt |1 - r_perp.length_squared|)
  r_perp.add r_para

/-- Schlick `reflectance` from `dielectric.rs` / `main.rs`. -/
noncomputable def reflectance (cos_theta refraction_ratio : ℝ) : ℝ :=
  let r := ((1 - refraction_ratio) / (1 + refraction_ratio)) ^ 2
  r + (1 - r) * (1 - cos_theta) ^ 5

/-- One bundle of random draws consumed by a single `scatter` call: the
`UnitSphere` sample (Lambertian), the `UnitBall` sample (Metal fuzz) and the
uniform `gen()` value in [0,1) (Dielectric). -/
structure Rand where
  onUnitSphere : Vec3
  inUnitBall : Vec3
  uniform : ℝ

/-- Function `LambertianMaterial::scatter`, the random unit-sphere sample passed in. -/
noncomputable def lambertianScatter (albedo : Vec3) (_r : Ray)
    (intersection : SurfaceIntersection) (rnd : Rand) : Option (Vec3 × Ray) :=
  let d := intersection.normal.add rnd.onUnitSphere
  let scattered_direction := if is_near_zero d then intersection.normal else d
  some (albedo, Ray.mk intersection.p scattered_direction)

open Classical in
/-- Function `MetalMaterial::scatter`, the random unit-ball sample passed in. -/
noncomputable def metalScatter (albedo : Vec3) (fuzz : ℝ) (r : Ray)
    (intersection : SurfaceIntersection) (rnd : Rand) : Option (Vec3 × Ray) :=
  let reflected_direction := (reflect r.direction intersection.normal).normalize
  let scattered_direction := reflected_direction.add (rnd.inUnitBall.scale fuzz)
  let scattered := Ray.mk intersection.p scattered_direction
  if scattered.direction.dot intersection.normal > 0 then some (albedo, scattered)
  else none

open Classical in
/-- Function `DielectricMaterial::scatter`, the uniform random value passed in. -/
noncomputable def dielectricScatter (index_of_refraction : ℝ) (r : Ray)
    (intersection : SurfaceIntersection) (rnd : Rand) : Option (Vec3 × Ray) :=
  let refraction_ratio :=
    if intersection.facing then 1 / index_of_refraction else index_of_refraction
  let r_direction_norm := r.direction.normalize
  let cos_theta := min (intersection.normal.dot r_direction_norm.neg) 1
  let sin_theta := Real.sqrt (1 - cos_theta * cos_theta)
  let cannot_refract := refraction_ratio * sin_theta > 1
  let schlick_approx := reflectance cos_theta refraction_ratio
  let scattered_direction :=
    if cannot_refract ∨ schlick_approx > rnd.uniform then
      reflect r_direction_norm intersection.normal
    else
      refract r_direction_norm intersection.normal refraction_ratio
  some (Vec3.one, Ray.mk intersection.p scattered_direction)

/-- Material dispatch for `intersection.material.scatter(...)`. -/
noncomputable def Material.scatter (m : Material) (r : Ray)
    (intersection : SurfaceIntersection) (rnd : Rand) : Option (Vec3 × Ray) :=
  match m with
  | .lambertian albedo => lambertianScatter albedo r intersection rnd
  | .metal albedo fuzz => metalScatter albedo fuzz r intersection rnd
  | .dielectric ior => dielectricScatter ior r intersection rnd

/-- Function `background` from `main.rs`: vertical lerp between white and sky blue. -/
noncomputable def background (ray : Ray) : Vec3 :=
  let color_t : Vec3 := ⟨0.5, 0.7, 1⟩
  let color_b : Vec3 := ⟨1, 1, 1⟩
  let ray_dir_normalized := ray.direction.normalize
  let t := 0.5 * (ray_dir_normalized.y + 1)
  Vec3.lerp color_b color_t t

/-- The recursive integrator `raycast` from `main.rs`.  The thread-local RNG is
modelled as a stream of `Rand` bundles, one consumed per bounce. -/
noncomputable def raycast (world : World) (ray : Ray) (depth : ℕ)
    (rng : ℕ → Rand) : Vec3 :=
  match depth with
  | 0 => Vec3.zero
  | d + 1 =>
    match find_closest_intersection world ray (1 / 1000) f32Max with
    | some intersection =>
      match intersection.material.scatter ray intersection (rng 0) with
      | some (attenuation, scattered) =>
        attenuation.mul (raycast world scattered d (fun n => rng (n + 1)))
      | none => Vec3.zero
    | none => background ray

/-- Number of scattering bounces the integrator actually performs on the given
inputs (the depth of the recursion in `raycast`). -/
noncomputable def raycastBounces (world : World) (ray : Ray) (depth : ℕ)
    (rng : ℕ → Rand) : ℕ :=
  match depth with
  | 0 => 0
  | d + 1 =>
    match find_closest_intersection world ray (1 / 1000) f32Max with
    | some intersection =>
      match intersection.material.scatter ray intersection (rng 0) with
      | some (_, scattered) =>
        raycastBounces world scattered d (fun n => rng (n + 1)) + 1
      | none => 0
    | none => 0

/-- Rust `f64::clamp(lo, hi)`. -/
noncomputable def clampR (x lo hi : ℝ) : ℝ := min (max x lo) hi

open Classical in
/-- Rust `as i32` on a finite float: truncation toward zero. -/
noncomputable def truncToInt (x : ℝ) : ℤ := if 0 ≤ x then ⌊x⌋ else ⌈x⌉

/-- Multisample averaging, gamma-2 correction and clamping of one channel
(`main.rs` lines 356-358): `(c / samples_per_pixel).sqrt().clamp(0.0, 0.999)`. -/
noncomputable def gammaChannel (c : ℝ) (samples_per_pixel : ℕ) : ℝ :=
  clampR (Real.sqrt (c / samples_per_pixel)) 0 0.999

/-- One channel of `format_color`: `(x * 255.999) as i32`. -/
noncomputable def formatChannel (x : ℝ) : ℤ := truncToInt (x * 255.999)

/-- The full per-channel output pipeline of the render loop: average, gamma
correct, clamp, quantize. -/
noncomputable def writeChannel (c : ℝ) (samples_per_pixel : ℕ) : ℤ :=
  formatChannel (gammaChannel c samples_per_pixel)

/-! ### Helper lemmas -/

/-- Scalar abbreviation: `half_b` of the sphere quadratic. -/
noncomputable def Sphere.halfB (s : Sphere) (r : Ray) : ℝ :=
  (r.origin.sub s.center).dot r.direction

/-- Scalar abbreviation: `c` of the sphere quadratic. -/
noncomputable def Sphere.qc (s : Sphere) (r : Ray) : ℝ :=
  (r.origin.sub s.center).length_squared - s.radius * s.radius

/-- Scalar abbreviation: the discriminant of the sphere quadratic. -/
noncomputable def Sphere.disc (s : Sphere) (r : Ray) : ℝ :=
  s.halfB r * s.halfB r - r.direction.length_squared * s.qc r

/-- The smaller quadratic root `(-half_b - √discriminant) / a`. -/
noncomputable def Sphere.rootLower (s : Sphere) (r : Ray) : ℝ :=
  (-s.halfB r - Real.sqrt (s.disc r)) / r.direction.length_squared

/-- The larger quadratic root `(-half_b + √discriminant) / a`. -/
noncomputable def Sphere.rootUpper (s : Sphere) (r : Ray) : ℝ :=
  (-s.halfB r + Real.sqrt (s.disc r)) / r.direction.length_squared

/-- Concrete upward ray used to instantiate `raycast_background_spec`. -/
noncomputable def bgRay : Ray := ⟨Vec3.zero, ⟨0, 1, 0⟩⟩

/-- Concrete (arbitrary) random bundle. -/
noncomputable def rand0 : Rand := ⟨Vec3.zero, Vec3.zero, 0⟩

/-- Concrete unit sphere at the origin (inputs for the normal-orientation
witness: the ray starts inside it). -/
noncomputable def exSphere : Sphere := ⟨Vec3.zero, 1, .lambertian Vec3.zero⟩

/-- Concrete ray from the center of `exSphere` along `-z`. -/
noncomputable def exRay : Ray := ⟨Vec3.zero, ⟨0, 0, -1⟩⟩

/-- The intersection `exSphere.raycast exRay 0 1` evaluates to. -/
noncomputable def exHit : SurfaceIntersection :=
  ⟨⟨0, 0, -1⟩, ⟨0, 0, 1⟩, false, .lambertian Vec3.zero, 1⟩

/-- Sphere whose larger root the inverted bound check of `Sphere::raycast`
drops: unit sphere around the origin, probed from its center. -/
noncomputable def bugSphere : Sphere := ⟨Vec3.zero, 1, .lambertian Vec3.zero⟩

/-- Ray from the center of `bugSphere` along `+x`. -/
noncomputable def bugRay : Ray := ⟨Vec3.zero, ⟨1, 0, 0⟩⟩

/-- First sphere of the equal-`t` scan counterexample. -/
noncomputable def cexSphereA : Sphere := ⟨⟨2, 0, 0⟩, 1, .lambertian ⟨0, 0, 0⟩⟩

/-- Second sphere of the equal-`t` scan counterexample: same geometry as
`cexSphereA`, different material. -/
noncomputable def cexSphereB : Sphere := ⟨⟨2, 0, 0⟩, 1, .lambertian ⟨1, 1, 1⟩⟩

/-- Ray of the equal-`t` scan counterexample. -/
noncomputable def cexRay : Ray := ⟨Vec3.zero, ⟨1, 0, 0⟩⟩

/-- Hit that `cexSphereA` reports on `cexRay` in `(0, 10)`. -/
noncomputable def cexHitA : SurfaceIntersection :=
  ⟨⟨1, 0, 0⟩, ⟨-1, 0, 0⟩, true, .lambertian ⟨0, 0, 0⟩, 1⟩

/-- Hit that `cexSphereB` reports on `cexRay` in `(0, 1)`. -/
noncomputable def cexHitB : SurfaceIntersection :=
  ⟨⟨1, 0, 0⟩, ⟨-1, 0, 0⟩, true, .lambertian ⟨1, 1, 1⟩, 1⟩

open Classical in
lemma Sphere.raycast_eq (s : Sphere) (r : Ray) (t_min t_max : ℝ) :
    s.raycast r t_min t_max =
      if s.disc r < 0 then none
      else if s.rootLower r < t_min ∨ t_max < s.rootLower r then
        if s.rootUpper r < t_max ∨ t_max < s.rootUpper r then none
        else some (s.intersectionAt r (s.rootUpper r))
      else some (s.intersectionAt r (s.rootLower r)) := rfl

lemma Sphere.intersectionAt_t (s : Sphere) (r : Ray) (t : ℝ) :
    (s.intersectionAt r t).t = t := rfl

lemma Sphere.intersectionAt_p (s : Sphere) (r : Ray) (t : ℝ) :
    (s.intersectionAt r t).p = r.at t := rfl

/-- Case analysis on a successful `Sphere::raycast`: the discriminant is
non-negative and the result is built either from the lower root (when it is in
`[t_min, t_max]`) or from the upper root (when the lower root is out of range
and the upper root equals `t_max` — the inverted inner bound check). -/
lemma Sphere.raycast_some_cases {s : Sphere} {r : Ray} {t_min t_max : ℝ}
    {i : SurfaceIntersection} (h : s.raycast r t_min t_max = some i) :
    0 ≤ s.disc r ∧
      ((t_min ≤ s.rootLower r ∧ s.rootLower r ≤ t_max ∧
          i = s.intersectionAt r (s.rootLower r)) ∨
        ((s.rootLower r < t_min ∨ t_max < s.rootLower r) ∧
          s.rootUpper r = t_max ∧ i = s.intersectionAt r (s.rootUpper r))) := by
  rw [Sphere.raycast_eq] at h
  split_ifs at h with h1 h2 h3
  · push_neg at h3
    exact ⟨not_lt.mp h1,
      Or.inr ⟨h2, le_antisymm h3.2 h3.1, (Option.some_injective _ h).symm⟩⟩
  · push_neg at h2
    exact ⟨not_lt.mp h1, Or.inl ⟨h2.1, h2.2, (Option.some_injective _ h).symm⟩⟩

/-- Range invariant of `Sphere::raycast`: the reported parameter `t` lies in
`[t_min, t_max]`. -/
lemma Sphere.raycast_t_range {s : Sphere} {r : Ray} {t_min t_max : ℝ}
    {i : SurfaceIntersection} (hb : t_min ≤ t_max)
    (h : s.raycast r t_min t_max = some i) :
    t_min ≤ i.t ∧ i.t ≤ t_max := by
  obtain ⟨-, hc | hc⟩ := Sphere.raycast_some_cases h
  · obtain ⟨h1, h2, rfl⟩ := hc
    rw [Sphere.intersectionAt_t]
    exact ⟨h1, h2⟩
  · obtain ⟨-, h2, rfl⟩ := hc
    rw [Sphere.intersectionAt_t, h2]
    exact ⟨hb, le_refl _⟩

/-- Shrinking the upper bound past the reported hit keeps the hit. -/
lemma Sphere.raycast_shrink {s : Sphere} {r : Ray} {t_min t_max t_max' : ℝ}
    {j : SurfaceIntersection} (h : s.raycast r t_min t_max = some j)
    (h1 : t_min ≤ t_max') (h2 : t_max' ≤ t_max) (h3 : j.t ≤ t_max') :
    s.raycast r t_min t_max' = some j := by
  obtain ⟨hd, hc | hc⟩ := Sphere.raycast_some_cases h
  · obtain ⟨ha, hb, rfl⟩ := hc
    rw [Sphere.intersectionAt_t] at h3
    rw [Sphere.raycast_eq, if_neg (not_lt.mpr hd), if_neg]
    push_neg
    exact ⟨ha, h3⟩
  · obtain ⟨ha, hb, rfl⟩ := hc
    rw [Sphere.intersectionAt_t, hb] at h3
    have : t_max' = t_max := le_antisymm h2 h3
    rw [this]
    exact h

/-- A hit reported against a shrunken upper bound is never farther than a hit
reported against the original bound. -/
lemma Sphere.raycast_shrink_le {s : Sphere} {r : Ray} {t_min t_near t_max : ℝ}
    {k j : SurfaceIntersection} (hk : s.raycast r t_min t_near = some k)
    (hj : s.raycast r t_min t_max = some j) (hnear : t_near ≤ t_max) :
    k.t ≤ j.t := by
  obtain ⟨-, hkc | hkc⟩ := Sphere.raycast_some_cases hk
  · obtain ⟨hk1, hk2, rfl⟩ := hkc
    obtain ⟨-, hjc | hjc⟩ := Sphere.raycast_some_cases hj
    · obtain ⟨-, -, rfl⟩ := hjc
      rw [Sphere.intersectionAt_t]
    · obtain ⟨hj1, -, rfl⟩ := hjc
      rcases hj1 with h | h
      · exact absurd hk1 (not_le.mpr h)
      · exact absurd (le_trans hk2 hnear) (not_le.mpr h)
  · obtain ⟨hk1, hk2, rfl⟩ := hkc
    obtain ⟨-, hjc | hjc⟩ := Sphere.raycast_some_cases hj
    · obtain ⟨hj1, -, rfl⟩ := hjc
      rw [Sphere.intersectionAt_t (t := s.rootUpper r),
        Sphere.intersectionAt_t (t := s.rootLower r), hk2]
      rcases hk1 with h | h
      · exact absurd hj1 (not_le.mpr h)
      · exact le_of_lt h
    · obtain ⟨-, -, rfl⟩ := hjc
      rw [Sphere.intersectionAt_t]

/-- Invariant of the linear scan: any returned hit is in `[t_min, t_nearest]`
and is at least as close as every hit any scanned sphere reports against the
original bound `t_max`. -/
lemma findClosestGo_spec (ray : Ray) (t_min t_max : ℝ) (rest : World)
    (result : Option SurfaceIntersection) (t_near : ℝ)
    (hmin : t_min ≤ t_near) (hmax : t_near ≤ t_max)
    (hres : ∀ i, result = some i → i.t = t_near) :
    ∀ i, findClosestGo ray t_min rest result t_near = some i →
      t_min ≤ i.t ∧ i.t ≤ t_near ∧
        ∀ s ∈ rest, ∀ j, s.raycast ray t_min t_max = some j → i.t ≤ j.t := by
  induction rest generalizing result t_near with
  | nil =>
    intro i hi
    simp only [findClosestGo] at hi
    refine ⟨?_, ?_, by simp⟩
    · rw [hres i hi]; exact hmin
    · rw [hres i hi]
  | cons s rest ih =>
    intro i hi
    simp only [findClosestGo] at hi
    cases hq : s.raycast ray t_min t_near with
    | some k =>
      rw [hq] at hi
      obtain ⟨hk1, hk2⟩ := Sphere.raycast_t_range hmin hq
      obtain ⟨ha, hb, hc⟩ :=
        ih (some k) k.t hk1 (le_trans hk2 hmax) (by intro i h; cases h; rfl) i hi
      refine ⟨ha, le_trans hb hk2, ?_⟩
      intro s' hs' j hj
      rcases List.mem_cons.mp hs' with rfl | hs'
      · exact le_trans hb (Sphere.raycast_shrink_le hq hj hmax)
      · exact hc s' hs' j hj
    | none =>
      rw [hq] at hi
      obtain ⟨ha, hb, hc⟩ := ih result t_near hmin hmax hres i hi
      refine ⟨ha, hb, ?_⟩
      intro s' hs' j hj
      rcases List.mem_cons.mp hs' with rfl | hs'
      · by_cases hjt : j.t ≤ t_near
        · exact absurd (Sphere.raycast_shrink hj hmin hmax hjt) (by simp [hq])
        · exact le_trans hb (le_of_not_le hjt)
      · exact hc s' hs' j hj

/-- Once the scan carries a hit it never answers `none`. -/
lemma findClosestGo_ne_none (ray : Ray) (t_min : ℝ) (rest : World)
    (i : SurfaceIntersection) (t_near : ℝ) :
    findClosestGo ray t_min rest (some i) t_near ≠ none := by
  induction rest generalizing i t_near with
  | nil => simp [findClosestGo]
  | cons s rest ih =>
    simp only [findClosestGo]
    cases hq : s.raycast ray t_min t_near with
    | some k => exact ih k k.t
    | none => exact ih i t_near

/-- The scan (started empty) answers `none` exactly when every sphere misses at
the original bound. -/
lemma findClosestGo_none_iff (ray : Ray) (t_min t_max : ℝ) (rest : World) :
    findClosestGo ray t_min rest none t_max = none ↔
      ∀ s ∈ rest, s.raycast ray t_min t_max = none := by
  induction rest with
  | nil => simp [findClosestGo]
  | cons s rest ih =>
    simp only [findClosestGo]
    cases hq : s.raycast ray t_min t_max with
    | some k =>
      simp only [hq]
      constructor
      · intro h
        exact absurd h (findClosestGo_ne_none ray t_min rest k k.t)
      · intro h
        exact absurd (h s (List.mem_cons_self s rest)) (by simp [hq])
    | none =>
      simp only [hq]
      rw [ih]
      constructor
      · intro h s' hs'
        rcases List.mem_cons.mp hs' with rfl | hs'
        · exact hq
        · exact h s' hs'
      · intro h s' hs'
        exact h s' (List.mem_cons_of_mem s hs')

lemma Vec3.dot_comm (v w : Vec3) : v.dot w = w.dot v := by
  simp only [Vec3.dot]; ring

lemma Vec3.neg_dot (v w : Vec3) : v.neg.dot w = -(v.dot w) := by
  simp only [Vec3.dot, Vec3.neg]; ring

lemma Vec3.length_squared_pos {v : Vec3} (h : v ≠ Vec3.zero) :
    0 < v.length_squared := by
  obtain ⟨x, y, z⟩ := v
  simp only [Vec3.length_squared, Vec3.dot]
  rcases eq_or_lt_of_le (add_nonneg (add_nonneg (mul_self_nonneg x)
      (mul_self_nonneg y)) (mul_self_nonneg z)) with heq | hlt
  · exfalso
    apply h
    have hx : x = 0 := by
      nlinarith [mul_self_nonneg x, mul_self_nonneg y, mul_self_nonneg z]
    have hy : y = 0 := by
      nlinarith [mul_self_nonneg x, mul_self_nonneg y, mul_self_nonneg z]
    have hz : z = 0 := by
      nlinarith [mul_self_nonneg x, mul_self_nonneg y, mul_self_nonneg z]
    simp [Vec3.zero, hx, hy, hz]
  · exact hlt

/-- Either quadratic root reported by `Sphere::raycast` satisfies the sphere
quadratic `a·t² + 2·half_b·t + c = 0`. -/
lemma quad_root_val {a hb c t : ℝ} (ha : a ≠ 0) (hd : 0 ≤ hb * hb - a * c)
    (ht : t = (-hb - Real.sqrt (hb * hb - a * c)) / a ∨
          t = (-hb + Real.sqrt (hb * hb - a * c)) / a) :
    a * (t * t) + 2 * hb * t + c = 0 := by
  have hs : Real.sqrt (hb * hb - a * c) * Real.sqrt (hb * hb - a * c) =
      hb * hb - a * c := Real.mul_self_sqrt hd
  rcases ht with rfl | rfl <;> field_simp <;> nlinarith [hs]

/-- Expansion of `|oc + t·d|²`. -/
lemma at_sub_center_length_squared (s : Sphere) (r : Ray) (t : ℝ) :
    ((r.at t).sub s.center).length_squared =
      (r.origin.sub s.center).length_squared +
        2 * ((r.origin.sub s.center).dot r.direction) * t +
        r.direction.length_squared * (t * t) := by
  simp only [Ray.at, Vec3.sub, Vec3.add, Vec3.scale, Vec3.length_squared, Vec3.dot]
  ring

lemma Vec3.divScalar_length_squared (v : Vec3) (k : ℝ) :
    (v.divScalar k).length_squared = v.length_squared / (k * k) := by
  simp only [Vec3.divScalar, Vec3.length_squared, Vec3.dot, div_mul_div_comm]
  ring

lemma Vec3.neg_length_squared (v : Vec3) :
    v.neg.length_squared = v.length_squared := by
  simp only [Vec3.neg, Vec3.length_squared, Vec3.dot]
  ring

/-- A hit point reported by `Sphere::raycast` lies on the sphere:
`|p - center|² = radius²`. -/
lemma Sphere.hit_point_on_sphere {s : Sphere} {r : Ray} {t_min t_max : ℝ}
    {i : SurfaceIntersection} (hdir : r.direction ≠ Vec3.zero)
    (h : s.raycast r t_min t_max = some i) :
    (i.p.sub s.center).length_squared = s.radius * s.radius := by
  have ha : r.direction.length_squared ≠ 0 :=
    ne_of_gt (Vec3.length_squared_pos hdir)
  obtain ⟨hd, hc⟩ := Sphere.raycast_some_cases h
  have hroot : ∃ t, i = s.intersectionAt r t ∧
      (t = s.rootLower r ∨ t = s.rootUpper r) := by
    rcases hc with ⟨-, -, rfl⟩ | ⟨-, -, rfl⟩
    · exact ⟨s.rootLower r, rfl, Or.inl rfl⟩
    · exact ⟨s.rootUpper r, rfl, Or.inr rfl⟩
  obtain ⟨t, rfl, ht⟩ := hroot
  rw [Sphere.intersectionAt_p, at_sub_center_length_squared]
  have hq : r.direction.length_squared * (t * t) +
      2 * s.halfB r * t + s.qc r = 0 := by
    apply quad_root_val ha
    · simpa only [Sphere.disc] using hd
    · simpa only [Sphere.rootLower, Sphere.rootUpper, Sphere.disc] using ht
  simp only [Sphere.halfB, Sphere.qc] at hq
  linarith [hq]

/-! ### Claim theorems -/

/-- C9: Schlick reflectance at normal incidence (`cos_theta = 1`) equals
`r0 = ((1 - refraction_ratio)/(1 + refraction_ratio))²` exactly; the
angle-dependent term contributes zero. -/
theorem reflectance_normal_incidence (refraction_ratio : ℝ) :
    reflectance 1 refraction_ratio =
      ((1 - refraction_ratio) / (1 + refraction_ratio)) ^ 2 := by
  simp only [reflectance]
  ring

/-- C4: Lambertian and Dielectric scattering always return `Some`; Metal
scattering returns `None` exactly when the fuzz-perturbed reflected
direction's dot product with the intersection normal is ≤ 0. -/
theorem material_absorption_spec (albedoL albedoM : Vec3) (fuzz ior : ℝ)
    (r : Ray) (i : SurfaceIntersection) (rnd : Rand) :
    (lambertianScatter albedoL r i rnd).isSome = true ∧
    (dielectricScatter ior r i rnd).isSome = true ∧
    (metalScatter albedoM fuzz r i rnd = none ↔
      ((reflect r.direction i.normal).normalize.add
        (rnd.inUnitBall.scale fuzz)).dot i.normal ≤ 0) := by
  refine ⟨rfl, rfl, ?_⟩
  simp only [metalScatter]
  split_ifs with h
  · constructor
    · intro hc
      exact absurd hc (by simp)
    · intro hc
      exact absurd h (not_lt.mpr hc)
  · constructor
    · intro _
      exact not_lt.mp h
    · intro _
      rfl

open Classical in
/-- C5: the Dielectric scatter decision rule: refraction ratio is `1/index`
when front-facing and `index` otherwise; the outgoing direction is the
reflection of the normalized incoming direction when total internal reflection
forces it (`ratio·sin_theta > 1`) or when the uniform random draw is below the
Schlick reflectance, and the Snell refraction otherwise; the attenuation is
always `(1,1,1)`. -/
theorem dielectric_scatter_spec (ior : ℝ) (r : Ray) (i : SurfaceIntersection)
    (rnd : Rand) :
    dielectricScatter ior r i rnd =
      some (Vec3.one,
        Ray.mk i.p
          (if (if i.facing then 1 / ior else ior) *
                Real.sqrt (1 - min (i.normal.dot r.direction.normalize.neg) 1 *
                  min (i.normal.dot r.direction.normalize.neg) 1) > 1 ∨
              rnd.uniform <
                reflectance (min (i.normal.dot r.direction.normalize.neg) 1)
                  (if i.facing then 1 / ior else ior) then
            reflect r.direction.normalize i.normal
          else
            refract r.direction.normalize i.normal
              (if i.facing then 1 / ior else ior))) := rfl

/-- C6: the integrator returns the zero color at depth 0 and the number of
bounces it performs is bounded by the depth budget (every recursive call
decrements the depth). -/
theorem raycast_depth_spec (world : World) (ray : Ray) (depth : ℕ)
    (rng : ℕ → Rand) :
    raycast world ray 0 rng = Vec3.zero ∧
    raycastBounces world ray depth rng ≤ depth := by
  refine ⟨rfl, ?_⟩
  induction depth generalizing ray rng with
  | zero => exact Nat.le_refl 0
  | succ n ih =>
    simp only [raycastBounces]
    split
    · split
      · exact Nat.succ_le_succ (ih _ _)
      · exact Nat.zero_le _
    · exact Nat.zero_le _

/-- C7: a ray hitting no surface (at positive depth) evaluates to exactly the
background gradient — the lerp from the horizon color to the sky color with
parameter `0.5·(normalized_direction.y + 1)` — for every random source. -/
theorem raycast_background_spec (world : World) (ray : Ray) (depth : ℕ)
    (h : find_closest_intersection world ray (1 / 1000) f32Max = none)
    (hd : 0 < depth) :
    ∀ rng : ℕ → Rand, raycast world ray depth rng =
      Vec3.lerp ⟨1, 1, 1⟩ ⟨0.5, 0.7, 1⟩ (0.5 * (ray.direction.normalize.y + 1)) := by
  intro rng
  obtain ⟨d, rfl⟩ : ∃ d, depth = d + 1 :=
    ⟨depth - 1, (Nat.succ_pred_eq_of_pos hd).symm⟩
  simp only [raycast, h]
  rfl

lemma sqrt_eval {x y : ℝ} (hy : 0 ≤ y) (h : y * y = x) : Real.sqrt x = y := by
  rw [← h]
  exact Real.sqrt_mul_self hy

lemma Sphere.intersectionAt_facing (s : Sphere) (r : Ray) (t : ℝ) :
    (s.intersectionAt r t).facing = true ↔
      r.direction.dot (((r.at t).sub s.center).divScalar s.radius) < 0 := by
  by_cases hc : r.direction.dot (((r.at t).sub s.center).divScalar s.radius) < 0 <;>
    simp [Sphere.intersectionAt, hc]

lemma Sphere.intersectionAt_normal (s : Sphere) (r : Ray) (t : ℝ) :
    (s.intersectionAt r t).normal =
      if r.direction.dot (((r.at t).sub s.center).divScalar s.radius) < 0 then
        ((r.at t).sub s.center).divScalar s.radius
      else (((r.at t).sub s.center).divScalar s.radius).neg := by
  by_cases hc : r.direction.dot (((r.at t).sub s.center).divScalar s.radius) < 0 <;>
    simp [Sphere.intersectionAt, hc]

open Classical in
/-- C2: every intersection returned by `Sphere::raycast` has a unit-length
normal facing the incoming ray (`dot(normal, direction) ≤ 0`); the outward
normal is `(p - center) / radius`, `facing` holds iff the ray direction and the
outward normal have negative dot product, and `normal` is the outward normal
when facing and its negation otherwise. -/
theorem sphere_raycast_normal_spec (s : Sphere) (r : Ray) (t_min t_max : ℝ)
    (i : SurfaceIntersection) (hdir : r.direction ≠ Vec3.zero)
    (hrad : s.radius ≠ 0) (h : s.raycast r t_min t_max = some i) :
    i.normal.length = 1 ∧
    i.normal.dot r.direction ≤ 0 ∧
    (i.facing = true ↔
      r.direction.dot ((i.p.sub s.center).divScalar s.radius) < 0) ∧
    i.normal = (if i.facing = true then (i.p.sub s.center).divScalar s.radius
                else ((i.p.sub s.center).divScalar s.radius).neg) := by
  have hex : ∃ t, i = s.intersectionAt r t := by
    obtain ⟨-, hc⟩ := Sphere.raycast_some_cases h
    rcases hc with ⟨-, -, heq⟩ | ⟨-, -, heq⟩ <;> exact ⟨_, heq⟩
  obtain ⟨t, rfl⟩ := hex
  rw [Sphere.intersectionAt_p]
  have hon : ((r.at t).sub s.center).length_squared = s.radius * s.radius := by
    have hh := Sphere.hit_point_on_sphere hdir h
    rwa [Sphere.intersectionAt_p] at hh
  have houtsq :
      (((r.at t).sub s.center).divScalar s.radius).length_squared = 1 := by
    rw [Vec3.divScalar_length_squared, hon]
    field_simp
  have hfac := Sphere.intersectionAt_facing s r t
  have hnorm := Sphere.intersectionAt_normal s r t
  refine ⟨?_, ?_, hfac, ?_⟩
  · simp only [Vec3.length]
    rw [hnorm]
    split_ifs with hcnd
    · rw [houtsq, Real.sqrt_one]
    · rw [Vec3.neg_length_squared, houtsq, Real.sqrt_one]
  · rw [hnorm]
    split_ifs with hcnd
    · rw [Vec3.dot_comm]
      exact le_of_lt hcnd
    · rw [Vec3.neg_dot, Vec3.dot_comm]
      simpa using not_lt.mp hcnd
  · rw [hnorm]
    by_cases hcnd :
        r.direction.dot (((r.at t).sub s.center).divScalar s.radius) < 0
    · rw [if_pos hcnd, if_pos (hfac.mpr hcnd)]
    · rw [if_neg hcnd, if_neg (fun hh => hcnd (hfac.mp hh))]

lemma exSphere_disc : exSphere.disc exRay = 1 := by
  simp [Sphere.disc, Sphere.halfB, Sphere.qc, exSphere, exRay, Vec3.sub,
    Vec3.dot, Vec3.length_squared, Vec3.zero]

lemma exSphere_rootLower : exSphere.rootLower exRay = -1 := by
  rw [Sphere.rootLower, exSphere_disc, Real.sqrt_one]
  simp [Sphere.halfB, exSphere, exRay, Vec3.sub, Vec3.dot,
    Vec3.length_squared, Vec3.zero]

lemma exSphere_rootUpper : exSphere.rootUpper exRay = 1 := by
  rw [Sphere.rootUpper, exSphere_disc, Real.sqrt_one]
  simp [Sphere.halfB, exSphere, exRay, Vec3.sub, Vec3.dot,
    Vec3.length_squared, Vec3.zero]

lemma exRay_at_one : exRay.at 1 = ⟨0, 0, -1⟩ := by
  simp [Ray.at, exRay, Vec3.add, Vec3.scale, Vec3.zero]

lemma exSphere_outward :
    ((exRay.at 1).sub exSphere.center).divScalar exSphere.radius = ⟨0, 0, -1⟩ := by
  rw [exRay_at_one]
  simp [exSphere, Vec3.sub, Vec3.divScalar, Vec3.zero]

lemma exSphere_intersectionAt : exSphere.intersectionAt exRay 1 = exHit := by
  have hfac : (exSphere.intersectionAt exRay 1).facing = false := by
    rw [Bool.eq_false_iff]
    intro hc
    have := (Sphere.intersectionAt_facing exSphere exRay 1).mp hc
    rw [exSphere_outward] at this
    simp [exRay, Vec3.dot] at this
    linarith
  have hnorm : (exSphere.intersectionAt exRay 1).normal = ⟨0, 0, 1⟩ := by
    rw [Sphere.intersectionAt_normal, exSphere_outward, if_neg]
    · simp [Vec3.neg]
    · simp [exRay, Vec3.dot]
  have hp := Sphere.intersectionAt_p exSphere exRay 1
  rw [exRay_at_one] at hp
  have ht := Sphere.intersectionAt_t exSphere exRay 1
  have hmat : (exSphere.intersectionAt exRay 1).material =
      Material.lambertian Vec3.zero := rfl
  cases hi : exSphere.intersectionAt exRay 1
  rw [hi] at hfac hnorm hp ht hmat
  simp only [exHit] at *
  simp_all

lemma exSphere_raycast : exSphere.raycast exRay 0 1 = some exHit := by
  rw [Sphere.raycast_eq]
  rw [if_neg (by rw [exSphere_disc]; norm_num)]
  rw [if_pos (Or.inl (by rw [exSphere_rootLower]; norm_num))]
  rw [if_neg (by rw [exSphere_rootUpper]; simp)]
  rw [exSphere_rootUpper, exSphere_intersectionAt]

/-- Witness for C2 at a concrete hit: probing the unit sphere from its centre,
the reported normal is the negated outward normal, is unit length and faces the
ray. -/
theorem sphere_raycast_normal_spec_witness :
    exRay.direction ≠ Vec3.zero ∧ exSphere.radius ≠ 0 ∧
    exSphere.raycast exRay 0 1 = some exHit ∧
    (exHit.normal.length = 1 ∧
     exHit.normal.dot exRay.direction ≤ 0 ∧
     (exHit.facing = true ↔
       exRay.direction.dot
         ((exHit.p.sub exSphere.center).divScalar exSphere.radius) < 0) ∧
     exHit.normal =
       (if exHit.facing = true then
          (exHit.p.sub exSphere.center).divScalar exSphere.radius
        else ((exHit.p.sub exSphere.center).divScalar exSphere.radius).neg)) :=
  ⟨by simp [exRay, Vec3.zero], by norm_num [exSphere], exSphere_raycast,
   sphere_raycast_normal_spec exSphere exRay 0 1 exHit
     (by simp [exRay, Vec3.zero]) (by norm_num [exSphere]) exSphere_raycast⟩

lemma bugSphere_disc : bugSphere.disc bugRay = 1 := by
  simp [Sphere.disc, Sphere.halfB, Sphere.qc, bugSphere, bugRay, Vec3.sub,
    Vec3.dot, Vec3.length_squared, Vec3.zero]

lemma bugSphere_rootLower : bugSphere.rootLower bugRay = -1 := by
  rw [Sphere.rootLower, bugSphere_disc, Real.sqrt_one]
  simp [Sphere.halfB, bugSphere, bugRay, Vec3.sub, Vec3.dot,
    Vec3.length_squared, Vec3.zero]

lemma bugSphere_rootUpper : bugSphere.rootUpper bugRay = 1 := by
  rw [Sphere.rootUpper, bugSphere_disc, Real.sqrt_one]
  simp [Sphere.halfB, bugSphere, bugRay, Vec3.sub, Vec3.dot,
    Vec3.length_squared, Vec3.zero]

/-- C1 (code bug): the larger quadratic root equals 1 and lies strictly inside
`(t_min, t_max) = (1/100, 2)` while the smaller root `-1` is out of range, yet
`Sphere::raycast` returns `None` — its inner bound check reads
`root < t_max || t_max < root` (with `t_max` where `t_min` was intended), so
the larger root is only ever accepted when it equals `t_max` exactly. -/
theorem sphere_raycast_upper_root_dropped :
    bugSphere.rootUpper bugRay = 1 ∧
    bugSphere.rootLower bugRay < 1 / 100 ∧
    (1 / 100 : ℝ) < 1 ∧ (1 : ℝ) < 2 ∧
    bugSphere.raycast bugRay (1 / 100) 2 = none := by
  refine ⟨bugSphere_rootUpper, by rw [bugSphere_rootLower]; norm_num,
    by norm_num, by norm_num, ?_⟩
  rw [Sphere.raycast_eq]
  rw [if_neg (by rw [bugSphere_disc]; norm_num)]
  rw [if_pos (Or.inl (by rw [bugSphere_rootLower]; norm_num))]
  rw [if_pos (Or.inl (by rw [bugSphere_rootUpper]; norm_num))]

lemma cexSphereA_disc : cexSphereA.disc cexRay = 1 := by
  simp [Sphere.disc, Sphere.halfB, Sphere.qc, cexSphereA, cexRay, Vec3.sub,
    Vec3.dot, Vec3.length_squared, Vec3.zero]

lemma cexSphereA_rootLower : cexSphereA.rootLower cexRay = 1 := by
  rw [Sphere.rootLower, cexSphereA_disc, Real.sqrt_one]
  simp [Sphere.halfB, cexSphereA, cexRay, Vec3.sub, Vec3.dot,
    Vec3.length_squared, Vec3.zero]
  norm_num

lemma cexSphereB_disc : cexSphereB.disc cexRay = 1 := by
  simp [Sphere.disc, Sphere.halfB, Sphere.qc, cexSphereB, cexRay, Vec3.sub,
    Vec3.dot, Vec3.length_squared, Vec3.zero]

lemma cexSphereB_rootLower : cexSphereB.rootLower cexRay = 1 := by
  rw [Sphere.rootLower, cexSphereB_disc, Real.sqrt_one]
  simp [Sphere.halfB, cexSphereB, cexRay, Vec3.sub, Vec3.dot,
    Vec3.length_squared, Vec3.zero]
  norm_num

lemma cexRay_at_one : cexRay.at 1 = ⟨1, 0, 0⟩ := by
  simp [Ray.at, cexRay, Vec3.add, Vec3.scale, Vec3.zero]

lemma cexSphereA_intersectionAt : cexSphereA.intersectionAt cexRay 1 = cexHitA := by
  have hout : ((cexRay.at 1).sub cexSphereA.center).divScalar cexSphereA.radius =
      ⟨-1, 0, 0⟩ := by
    rw [cexRay_at_one]
    simp [cexSphereA, Vec3.sub, Vec3.divScalar]
    norm_num
  have hcond :
      cexRay.direction.dot
        (((cexRay.at 1).sub cexSphereA.center).divScalar cexSphereA.radius) < 0 := by
    rw [hout]
    simp [cexRay, Vec3.dot]
  have hfac : (cexSphereA.intersectionAt cexRay 1).facing = true :=
    (Sphere.intersectionAt_facing cexSphereA cexRay 1).mpr hcond
  have hnorm : (cexSphereA.intersectionAt cexRay 1).normal = ⟨-1, 0, 0⟩ := by
    rw [Sphere.intersectionAt_normal, if_pos hcond, hout]
  have hp := Sphere.intersectionAt_p cexSphereA cexRay 1
  rw [cexRay_at_one] at hp
  have ht := Sphere.intersectionAt_t cexSphereA cexRay 1
  have hmat : (cexSphereA.intersectionAt cexRay 1).material =
      Material.lambertian ⟨0, 0, 0⟩ := rfl
  cases hi : cexSphereA.intersectionAt cexRay 1
  rw [hi] at hfac hnorm hp ht hmat
  simp only [cexHitA] at *
  simp_all

lemma cexSphereB_intersectionAt : cexSphereB.intersectionAt cexRay 1 = cexHitB := by
  have hout : ((cexRay.at 1).sub cexSphereB.center).divScalar cexSphereB.radius =
      ⟨-1, 0, 0⟩ := by
    rw [cexRay_at_one]
    simp [cexSphereB, Vec3.sub, Vec3.divScalar]
    norm_num
  have hcond :
      cexRay.direction.dot
        (((cexRay.at 1).sub cexSphereB.center).divScalar cexSphereB.radius) < 0 := by
    rw [hout]
    simp [cexRay, Vec3.dot]
  have hfac : (cexSphereB.intersectionAt cexRay 1).facing = true :=
    (Sphere.intersectionAt_facing cexSphereB cexRay 1).mpr hcond
  have hnorm : (cexSphereB.intersectionAt cexRay 1).normal = ⟨-1, 0, 0⟩ := by
    rw [Sphere.intersectionAt_normal, if_pos hcond, hout]
  have hp := Sphere.intersectionAt_p cexSphereB cexRay 1
  rw [cexRay_at_one] at hp
  have ht := Sphere.intersectionAt_t cexSphereB cexRay 1
  have hmat : (cexSphereB.intersectionAt cexRay 1).material =
      Material.lambertian ⟨1, 1, 1⟩ := rfl
  cases hi : cexSphereB.intersectionAt cexRay 1
  rw [hi] at hfac hnorm hp ht hmat
  simp only [cexHitB] at *
  simp_all

lemma cexSphereA_raycast : cexSphereA.raycast cexRay 0 10 = some cexHitA := by
  rw [Sphere.raycast_eq]
  rw [if_neg (by rw [cexSphereA_disc]; norm_num)]
  rw [if_neg (by rw [cexSphereA_rootLower]; norm_num)]
  rw [cexSphereA_rootLower, cexSphereA_intersectionAt]

lemma cexSphereB_raycast : cexSphereB.raycast cexRay 0 1 = some cexHitB := by
  rw [Sphere.raycast_eq]
  rw [if_neg (by rw [cexSphereB_disc]; norm_num)]
  rw [if_neg (by rw [cexSphereB_rootLower]; norm_num)]
  rw [cexSphereB_rootLower, cexSphereB_intersectionAt]

/-- Counterexample to C3's "accepted only if strictly closer": scanning two
spheres with identical geometry but different materials, the second sphere
reports a hit at exactly the shrunken bound (equal `t`, not strictly closer)
and it replaces the first hit in the result. -/
theorem find_closest_equal_t_accepted :
    cexSphereA.raycast cexRay 0 10 = some cexHitA ∧
    cexSphereB.raycast cexRay 0 cexHitA.t = some cexHitB ∧
    find_closest_intersection [cexSphereA, cexSphereB] cexRay 0 10 =
      some cexHitB ∧
    cexHitB.t = cexHitA.t ∧
    cexHitB.material ≠ cexHitA.material := by
  have hA := cexSphereA_raycast
  have hB : cexSphereB.raycast cexRay 0 cexHitA.t = some cexHitB := by
    rw [show cexHitA.t = 1 from rfl]
    exact cexSphereB_raycast
  refine ⟨hA, hB, ?_, rfl, ?_⟩
  · rw [find_closest_intersection]
    simp only [findClosestGo, hA, hB]
  · simp [cexHitA, cexHitB, Material.lambertian.injEq, Vec3.mk.injEq]

/-- C3 (amended): the linear scan returns `None` iff every surface misses at
the original bounds, and any returned intersection has `t ∈ [t_min, t_max]`
and is at least as close as every hit any surface reports at the original
bounds (later candidates are accepted when no farther than the running
nearest, ties included). -/
theorem find_closest_nearest_spec (world : World) (ray : Ray)
    (t_min t_max : ℝ) (hb : t_min ≤ t_max) :
    (find_closest_intersection world ray t_min t_max = none ↔
      ∀ s ∈ world, s.raycast ray t_min t_max = none) ∧
    (∀ i, find_closest_intersection world ray t_min t_max = some i →
      t_min ≤ i.t ∧ i.t ≤ t_max ∧
      ∀ s ∈ world, ∀ j, s.raycast ray t_min t_max = some j → i.t ≤ j.t) :=
  ⟨findClosestGo_none_iff ray t_min t_max world,
   findClosestGo_spec ray t_min t_max world none t_max hb le_rfl (by simp)⟩

/-- Witness for C3's amended theorem on the two-sphere counterexample scene. -/
theorem find_closest_nearest_spec_witness :
    (0 : ℝ) ≤ 10 ∧
    ((find_closest_intersection [cexSphereA, cexSphereB] cexRay 0 10 = none ↔
        ∀ s ∈ [cexSphereA, cexSphereB], s.raycast cexRay 0 10 = none) ∧
     (∀ i, find_closest_intersection [cexSphereA, cexSphereB] cexRay 0 10 =
          some i →
        0 ≤ i.t ∧ i.t ≤ 10 ∧
        ∀ s ∈ [cexSphereA, cexSphereB], ∀ j,
          s.raycast cexRay 0 10 = some j → i.t ≤ j.t)) :=
  ⟨by norm_num,
   find_closest_nearest_spec [cexSphereA, cexSphereB] cexRay 0 10 (by norm_num)⟩

/-- C10: any intersection returned by `Sphere::raycast` has `t ∈
[t_min, t_max]`, and so does any intersection returned by the world-level
nearest-hit scan. -/
theorem raycast_t_range_spec (s : Sphere) (world : World) (ray : Ray)
    (t_min t_max : ℝ) (i j : SurfaceIntersection) (hb : t_min ≤ t_max) :
    (s.raycast ray t_min t_max = some i → t_min ≤ i.t ∧ i.t ≤ t_max) ∧
    (find_closest_intersection world ray t_min t_max = some j →
      t_min ≤ j.t ∧ j.t ≤ t_max) := by
  constructor
  · exact fun h => Sphere.raycast_t_range hb h
  · intro h
    obtain ⟨h1, h2, -⟩ :=
      findClosestGo_spec ray t_min t_max world none t_max hb le_rfl (by simp) j h
    exact ⟨h1, h2⟩

/-- Witness for C10 at the concrete unit-sphere scene. -/
theorem raycast_t_range_spec_witness :
    (0 : ℝ) ≤ 1 ∧
    ((exSphere.raycast exRay 0 1 = some exHit → 0 ≤ exHit.t ∧ exHit.t ≤ 1) ∧
     (find_closest_intersection [exSphere] exRay 0 1 = some exHit →
       0 ≤ exHit.t ∧ exHit.t ≤ 1)) :=
  ⟨by norm_num,
   raycast_t_range_spec exSphere [exSphere] exRay 0 1 exHit exHit (by norm_num)⟩

/-- Witness for C7: the empty scene misses every ray, and the integrator
returns the background gradient at depth 1. -/
theorem raycast_background_spec_witness :
    find_closest_intersection [] bgRay (1 / 1000) f32Max = none ∧ 0 < 1 ∧
    raycast [] bgRay 1 (fun _ => rand0) =
      Vec3.lerp ⟨1, 1, 1⟩ ⟨0.5, 0.7, 1⟩ (0.5 * (bgRay.direction.normalize.y + 1)) :=
  ⟨rfl, Nat.one_pos,
    raycast_background_spec [] bgRay 1 rfl Nat.one_pos (fun _ => rand0)⟩

lemma gammaChannel_five_twenty : gammaChannel 5 20 = 1 / 2 := by
  rw [gammaChannel, show ((5 : ℝ) / ((20 : ℕ) : ℝ)) = 1 / 4 by norm_num,
    show Real.sqrt (1 / 4 : ℝ) = 1 / 2 from sqrt_eval (by norm_num) (by norm_num),
    clampR, max_eq_left (by norm_num), min_eq_left (by norm_num)]

/-- Counterexample to C8's "multiplying by 256": the code multiplies by
255.999, and on the pixel value 1/2 (accumulated channel 5 over 20 samples)
the two quantizers disagree: the code writes 127 while multiplying by 256 and
truncating would write 128. -/
theorem format_channel_not_times_256 :
    writeChannel 5 20 = 127 ∧
    truncToInt (gammaChannel 5 20 * 256) = 128 ∧
    writeChannel 5 20 ≠ truncToInt (gammaChannel 5 20 * 256) := by
  have h1 : writeChannel 5 20 = 127 := by
    rw [writeChannel, gammaChannel_five_twenty, formatChannel,
      show (1 / 2 : ℝ) * 255.999 = 127.9995 by norm_num, truncToInt,
      if_pos (by norm_num)]
    rw [Int.floor_eq_iff]
    norm_num
  have h2 : truncToInt (gammaChannel 5 20 * 256) = 128 := by
    rw [gammaChannel_five_twenty, show (1 / 2 : ℝ) * 256 = 128 by norm_num,
      truncToInt, if_pos (by norm_num)]
    rw [Int.floor_eq_iff]
    norm_num
  exact ⟨h1, h2, by rw [h1, h2]; norm_num⟩

/-- C8 (amended): each output channel is the accumulated color divided by the
sample count, square-rooted (gamma 2), clamped to `[0, 0.999]`, multiplied by
255.999 and truncated toward zero; every written channel is an integer in
`[0, 255]`. -/
theorem write_channel_spec (c : ℝ) (spp : ℕ) (hc : 0 ≤ c) (hspp : 0 < spp) :
    writeChannel c spp =
      truncToInt (clampR (Real.sqrt (c / spp)) 0 0.999 * 255.999) ∧
    0 ≤ writeChannel c spp ∧ writeChannel c spp ≤ 255 := by
  have hg0 : 0 ≤ gammaChannel c spp :=
    le_min (le_max_right _ _) (by norm_num)
  have hg1 : gammaChannel c spp ≤ 0.999 := min_le_right _ _
  have hx0 : 0 ≤ gammaChannel c spp * 255.999 := by
    apply mul_nonneg hg0
    norm_num
  refine ⟨rfl, ?_, ?_⟩
  · rw [writeChannel, formatChannel, truncToInt, if_pos hx0]
    exact Int.floor_nonneg.mpr hx0
  · rw [writeChannel, formatChannel, truncToInt, if_pos hx0]
    have hlt : (⌊gammaChannel c spp * 255.999⌋ : ℤ) < 256 := by
      rw [Int.floor_lt]
      push_cast
      nlinarith [hg1]
    omega

/-- Witness for C8's amended theorem at accumulated channel 5, 20 samples. -/
theorem write_channel_spec_witness :
    (0 : ℝ) ≤ 5 ∧ 0 < 20 ∧
    (writeChannel 5 20 =
       truncToInt (clampR (Real.sqrt ((5 : ℝ) / ((20 : ℕ) : ℝ))) 0 0.999 *
         255.999) ∧
     0 ≤ writeChannel 5 20 ∧ writeChannel 5 20 ≤ 255) :=
  ⟨by norm_num, by norm_num, write_channel_spec 5 20 (by norm_num) (by norm_num)⟩

end RTOW
